import Mathlib

/-!
Verification of the `redy` Redis client (github.com/essentialkaos/redy).

This file shallowly embeds the RESP codec and the connection/pipeline core of
the repository in Lean 4 and proves properties of that embedding.

Provenance of the definitions:
* The decoder and the `Resp` data model are translated from the current
  `resp.go` of the package (the copy stored at `src/unnamed/part_002`, which is
  the one the current `redy_test.go`, `config.go` and `info.go` compile
  against: it uses `HasType`, the `STR_*` constant names, the 512 MiB bulk
  ceiling and the short-line checks).  The stale pre-2.0 copy at `src/resp.go`
  differs only in those checks and in identifier names.
* The request encoder (`flattenedLength`, `writeTo` with the
  `forceString`/`noArrayHeader` flags, `writeArrayHeader`, `writeBytes`) is
  translated from `src/resp.go`, whose signatures the client file uses.
* The client (`Connect`, `Cmd`, `PipeAppend`, `PipeResp`, `writeRequest`,
  `readResp`) is translated from the client file stored at
  `src/unnamed/part_003`, the only implementation of `Client` in the tree.

Modelling conventions:
* Byte streams are `List Nat` (each entry one byte value).  Go strings used as
  command arguments are kept as their byte lists.
* Go `error` values become the inductive `GoErr`; `strconv.ParseInt` becomes
  `parseInt64` (returning `Option Int`, since the callers only test `err !=
  nil`); fallible functions return `Except GoErr`.
* The recursive-descent decoder takes a fuel argument to make the recursion
  over nested arrays structural; the top-level reader supplies more fuel than
  any input can consume, and fuel exhaustion is reported like any other read
  error.
* `net.Conn` is modelled by `Conn`: a closed flag, the bytes the server has
  made available for reading, the bytes written so far, and an optional
  injected write fault standing for a failing socket write.  A write on a
  closed connection fails with `GoErr.closedConn`, which is how a real
  `net.Conn` behaves (and what the repository's own `TestLastCritical` test
  relies on).
-/

/-- Go `error` values that appear in the embedded code.  Constructor names
follow the `Err*` variables of `resp.go` and the client file; `srvMsg` is an
`errors.New` built from a server error line, `injected` stands for an I/O
error produced by the transport, `closedConn` for the error a write or read
on a closed connection returns, and `outOfFuel` is the artifact of the fuel
counter of the embedded decoder. -/
inductive GoErr where
  | parse          -- ErrParse
  | badType        -- ErrBadType
  | respTooBig     -- ErrRespTooBig
  | respNil        -- ErrRespNil
  | notStr         -- ErrNotStr
  | notArray       -- ErrNotArray
  | notMap         -- ErrNotMap
  | notConnected   -- ErrNotConnected
  | emptyPipeline  -- ErrEmptyPipeline
  | eofErr         -- io.EOF / bufio reporting end of stream
  | outOfFuel      -- decoder fuel artifact (never reached with enough fuel)
  | closedConn     -- use of closed network connection
  | timeoutErr     -- a net.OpError for which Timeout() is true
  | srvMsg (m : List Nat)    -- errors.New(<error line sent by the server>)
  | injected (m : List Nat)  -- an injected transport write error
deriving DecidableEq, Repr

/-- RespType constant `STR_SIMPLE` (`1 << 0`). -/
def STR_SIMPLE : Nat := 1
/-- RespType constant `STR_BULK` (`1 << 1`). -/
def STR_BULK : Nat := 2
/-- RespType constant `INT` (`1 << 2`). -/
def INT : Nat := 4
/-- RespType constant `ARRAY` (`1 << 3`). -/
def ARRAY : Nat := 8
/-- RespType constant `NIL` (`1 << 4`). -/
def NIL : Nat := 16
/-- RespType constant `ERR_IO` (`1 << 5`); renamed `IO_ERR` here. -/
def IO_ERR : Nat := 32
/-- RespType constant `ERR_REDIS` (`1 << 6`). -/
def ERR_REDIS : Nat := 64
/-- RespType group constant `STR = STR_SIMPLE | STR_BULK`. -/
def STR : Nat := STR_SIMPLE ||| STR_BULK
/-- RespType group constant `ERR = ERR_IO | ERR_REDIS`; renamed `ERR_ANY`. -/
def ERR_ANY : Nat := IO_ERR ||| ERR_REDIS

mutual
/-- The `Resp` struct of `resp.go`: an optional error (`Err`), a type bitmask
(`typ`) and a dynamically typed payload (`val`). -/
inductive Resp where
  | mk (err : Option GoErr) (typ : Nat) (val : RVal)

/-- The possible shapes of the `interface{}` payload `Resp.val`: the decoder
stores `nil`, a byte slice, an `int64`, a `[]Resp`, or the error value
itself. -/
inductive RVal where
  | vnil
  | bytes (b : List Nat)
  | intv (i : Int)
  | arr (elems : List Resp)
  | errv (e : GoErr)
end

/-- Field accessor for `Resp.Err`. -/
def Resp.err : Resp → Option GoErr
  | .mk e _ _ => e

/-- Field accessor for `Resp.typ`. -/
def Resp.typ : Resp → Nat
  | .mk _ t _ => t

/-- Field accessor for `Resp.val`. -/
def Resp.val : Resp → RVal
  | .mk _ _ v => v

/-- `Resp.HasType` of `resp.go`: `r.typ & t > 0`. -/
def Resp.HasType (r : Resp) (t : Nat) : Bool :=
  0 < r.typ &&& t

/-- `errToResp` of `resp.go`: `Resp{err, t, err}`. -/
def errToResp (t : Nat) (e : GoErr) : Resp :=
  .mk (some e) t (.errv e)

/-- `isTimeout` of `resp.go`: the resp is of type `ERR_IO` and its error is a
`net.OpError` whose `Timeout()` is true (modelled by `GoErr.timeoutErr`). -/
def isTimeout (r : Resp) : Bool :=
  r.HasType IO_ERR && r.err == some .timeoutErr

/-! ## Decoder (`resp.go`) -/

/-- `bufio.Reader.ReadBytes('\n')` (`delimEnd`): the consumed prefix up to and
including the first newline byte, plus the remaining stream; reaching the end
of the stream before a newline is an error. -/
def readLine : List Nat → Except GoErr (List Nat × List Nat)
  | [] => .error .eofErr
  | b :: rest =>
    if b = 10 then .ok ([10], rest)
    else
      match readLine rest with
      | .error e => .error e
      | .ok (line, rem) => .ok (b :: line, rem)

/-- The slice `b[1 : len(b)-2]` every reader takes of a terminated line: drop
the type byte and the two terminator bytes (the readers check `len(b) >= 3`
before taking it). -/
def lineContent (b : List Nat) : List Nat :=
  (b.drop 1).dropLast.dropLast

/-- Decimal digit run accumulator used by `parseInt64`. -/
def parseDigitsAux : List Nat → Nat → Option Nat
  | [], acc => some acc
  | c :: rest, acc =>
    if 48 ≤ c ∧ c ≤ 57 then parseDigitsAux rest (acc * 10 + (c - 48))
    else none

/-- A non-empty run of decimal digit bytes, as a number. -/
def parseDigits : List Nat → Option Nat
  | [] => none
  | c :: rest => parseDigitsAux (c :: rest) 0

/-- `strconv.ParseInt(s, 10, 64)`: an optional sign followed by a non-empty
digit run, rejected outside the signed 64-bit range.  The callers only test
whether an error occurred, so the model returns `Option Int`. -/
def parseInt64 (b : List Nat) : Option Int :=
  match b with
  | [] => none
  | c :: rest =>
    match parseDigits (if c = 43 ∨ c = 45 then rest else c :: rest) with
    | none => none
    | some n =>
      let v : Int := if c = 45 then -(n : Int) else (n : Int)
      if v < -(2 ^ 63) ∨ (2 ^ 63 : Int) ≤ v then none else some v

/-- `readSimpleStr` of `resp.go`: a terminated line of at least 3 bytes,
payload between the `+` byte and the terminator. -/
def readSimpleStr (s : List Nat) : Except GoErr (Resp × List Nat) :=
  match readLine s with
  | .error e => .error e
  | .ok (b, rest) =>
    if b.length < 3 then .error .parse
    else .ok (.mk none STR_SIMPLE (.bytes (lineContent b)), rest)

/-- `readError` of `resp.go`: like `readSimpleStr` but the payload becomes an
`errors.New` error stored in an `ERR_REDIS` resp via `errToResp`. -/
def readError (s : List Nat) : Except GoErr (Resp × List Nat) :=
  match readLine s with
  | .error e => .error e
  | .ok (b, rest) =>
    if b.length < 3 then .error .parse
    else .ok (errToResp ERR_REDIS (.srvMsg (lineContent b)), rest)

/-- `readInt` of `resp.go`: a terminated line parsed as a signed 64-bit
integer; a parse failure is `ErrParse`. -/
def readInt (s : List Nat) : Except GoErr (Resp × List Nat) :=
  match readLine s with
  | .error e => .error e
  | .ok (b, rest) =>
    if b.length < 3 then .error .parse
    else
      match parseInt64 (lineContent b) with
      | none => .error .parse
      | some i => .ok (.mk none INT (.intv i), rest)

/-- `readBulkStr` of `resp.go`: a terminated length line; unparsable length is
`ErrParse`, a length above `512*1024*1024` is `ErrRespTooBig` (checked before
any payload byte is read), a negative length is protocol nil, otherwise
exactly `size` payload bytes are consumed verbatim followed by two trailing
bytes that are read and discarded without inspection. -/
def readBulkStr (s : List Nat) : Except GoErr (Resp × List Nat) :=
  match readLine s with
  | .error e => .error e
  | .ok (b, rest) =>
    if b.length < 3 then .error .parse
    else
      match parseInt64 (lineContent b) with
      | none => .error .parse
      | some size =>
        if 512 * 1024 * 1024 < size then .error .respTooBig
        else if size < 0 then .ok (.mk none NIL .vnil, rest)
        else if rest.length < size.toNat then .error .eofErr
        else
          match rest.drop size.toNat with
          | _ :: _ :: rest3 => .ok (.mk none STR_BULK (.bytes (rest.take size.toNat)), rest3)
          | _ => .error .eofErr

/-- The element loop of `readArray`: decode `n` child messages in order with
the recursive reader `recur`, propagating the first failure. -/
def readArrayElems (recur : List Nat → Except GoErr (Resp × List Nat)) :
    Nat → List Nat → Except GoErr (List Resp × List Nat)
  | 0, s => .ok ([], s)
  | m + 1, s =>
    match recur s with
    | .error e => .error e
    | .ok (r, s1) =>
      match readArrayElems recur m s1 with
      | .error e => .error e
      | .ok (rs, s2) => .ok (r :: rs, s2)

/-- `readArray` of `resp.go`, parameterized by the recursive reader used for
the child messages: a terminated count line; a negative count is protocol
nil, otherwise that many child messages are decoded in order from the same
stream. -/
def readArray (recur : List Nat → Except GoErr (Resp × List Nat))
    (s : List Nat) : Except GoErr (Resp × List Nat) :=
  match readLine s with
  | .error e => .error e
  | .ok (b, rest) =>
    if b.length < 3 then .error .parse
    else
      match parseInt64 (lineContent b) with
      | none => .error .parse
      | some size =>
        if size < 0 then .ok (.mk none NIL .vnil, rest)
        else
          match readArrayElems recur size.toNat rest with
          | .error e => .error e
          | .ok (elems, rest2) => .ok (.mk none ARRAY (.arr elems), rest2)

/-- `bufioReadResp` of `resp.go`: peek the first byte and dispatch on the
message type; an empty stream is an end-of-stream error, an unknown leading
byte is `ErrBadType`.  The fuel argument is an embedding artifact bounding
the nesting recursion; nested decoding inside arrays runs with one unit of
fuel less. -/
def bufioReadResp : Nat → List Nat → Except GoErr (Resp × List Nat)
  | 0, _ => .error .outOfFuel
  | _ + 1, [] => .error .eofErr
  | f + 1, b :: rest =>
    if b = 43 then readSimpleStr (b :: rest)
    else if b = 45 then readError (b :: rest)
    else if b = 58 then readInt (b :: rest)
    else if b = 36 then readBulkStr (b :: rest)
    else if b = 42 then readArray (bufioReadResp f) (b :: rest)
    else .error .badType

/-- `RespReader.Read` of `resp.go` together with the remaining stream: decode
one message, wrapping any failure as an `ERR_IO` resp via `errToResp`.  The
fuel `s.length + 1` exceeds what any input can consume, since every level of
nesting first consumes at least one byte. -/
def readOneResp (s : List Nat) : Resp × List Nat :=
  match bufioReadResp (s.length + 1) s with
  | .ok (r, rest) => (r, rest)
  | .error e => (errToResp IO_ERR e, s)

/-- `RespReader.Read` of `resp.go`, restricted to the returned `Resp`. -/
def respRead (s : List Nat) : Resp :=
  (readOneResp s).fst

/-- Iterated `RespReader.Read`: the `n` resps read back from a stream, in
order, with the remaining stream. -/
def readNResps : Nat → List Nat → List Resp × List Nat
  | 0, s => ([], s)
  | n + 1, s =>
    let p := readOneResp s
    let q := readNResps n p.snd
    (p.fst :: q.fst, q.snd)

/-- ASCII byte list of a Lean string literal, for writing wire fixtures. -/
def bytesOfString (s : String) : List Nat :=
  s.data.map Char.toNat

/-! ## Typed accessors (`resp.go`) -/

/-- `Resp.Bytes`: the error field is checked first, then protocol nil, then
the type bitmask, and finally the payload is type-asserted to a byte
slice. -/
def Resp.Bytes (r : Resp) : Except GoErr (List Nat) :=
  match r.err with
  | some e => .error e
  | none =>
    if r.HasType NIL then .error .respNil
    else if !r.HasType STR then .error .badType
    else
      match r.val with
      | .bytes b => .ok b
      | _ => .error .notStr

/-- `Resp.Str`: `Bytes` with the result converted to a Go string (the same
byte list in this model). -/
def Resp.Str (r : Resp) : Except GoErr (List Nat) :=
  r.Bytes

/-- `Resp.Float64` of `resp.go`, parameterized by `strconv.ParseFloat` (an
external library function, abstracted as `parse`): the error field is checked
first, then the payload is type-asserted to a byte slice — with no fallback
for integer payloads — and only then parsed. -/
def respFloat64 {F : Type} (parse : List Nat → Except GoErr F) (r : Resp) :
    Except GoErr F :=
  match r.err with
  | some e => .error e
  | none =>
    match r.val with
    | .bytes b => parse b
    | _ => .error .notStr

/-- Assignment `m[k] = v` on a Go `map[string]string`, modelled on an
association list that keeps insertion order: an existing key is overwritten in
place, a new key is appended. -/
def goMapInsert (m : List (List Nat × List Nat)) (k v : List Nat) :
    List (List Nat × List Nat) :=
  match m with
  | [] => [(k, v)]
  | (k1, v1) :: rest =>
    if k1 = k then (k1, v) :: rest
    else (k1, v1) :: goMapInsert rest k v

/-- The key/value loop of `Resp.Map`: consume the element list two at a time,
`Str()` on each key, a `NIL`-typed value becomes the empty string, otherwise
`Str()` on the value; the singleton case is unreachable behind the even-length
check.  Go map iteration order is not observable here; the model keeps
insertion order. -/
def respMapLoop (a : List Resp) (m : List (List Nat × List Nat)) :
    Except GoErr (List (List Nat × List Nat)) :=
  match a with
  | [] => .ok m
  | [_] => .error .notMap
  | k :: v :: rest =>
    match k.Str with
    | .error e => .error e
    | .ok ks =>
      if v.HasType NIL then respMapLoop rest (goMapInsert m ks [])
      else
        match v.Str with
        | .error e => .error e
        | .ok vs => respMapLoop rest (goMapInsert m ks vs)

/-- `Resp.Map` of `resp.go`: the error field is checked, the payload is
type-asserted to `[]Resp`, an odd element count is `ErrNotMap`, and the
alternating key/value elements populate a fresh map. -/
def Resp.Map (r : Resp) : Except GoErr (List (List Nat × List Nat)) :=
  match r.err with
  | some e => .error e
  | none =>
    match r.val with
    | .arr a =>
      if a.length % 2 ≠ 0 then .error .notMap
      else respMapLoop a []
    | _ => .error .notArray

/-! ## Encoder (`resp.go` writer functions and their flags) -/

/-- Decimal digit byte run of a natural number (`strconv.AppendInt` for
non-negative values); the first argument is structural fuel dominated by the
number of digits. -/
def natDigitsAux : Nat → Nat → List Nat
  | 0, _ => []
  | f + 1, n =>
    if n < 10 then [48 + n]
    else natDigitsAux f (n / 10) ++ [48 + n % 10]

/-- Decimal digit byte run of a natural number. -/
def natDigits (n : Nat) : List Nat :=
  natDigitsAux (n + 1) n

/-- `strconv.AppendInt(buf, i, 10)`: sign byte for negative values followed by
the decimal digits. -/
def intToDigits (i : Int) : List Nat :=
  if i < 0 then 45 :: natDigits (-i).toNat else natDigits i.toNat

/-- The `Error()` message text of each modelled Go error value. -/
def errText : GoErr → List Nat
  | .parse => bytesOfString "Parse error"
  | .badType => bytesOfString "Wrong type"
  | .respTooBig => bytesOfString "Response is huge and can't be parsed"
  | .respNil => bytesOfString "Response is nil"
  | .notStr => bytesOfString "Couldn't convert response to string"
  | .notArray => bytesOfString "Couldn't convert response to array"
  | .notMap => bytesOfString "Couldn't convert response to map (reply has odd number of elements)"
  | .notConnected => bytesOfString "Client not connected"
  | .emptyPipeline => bytesOfString "Pipeline is empty"
  | .eofErr => bytesOfString "EOF"
  | .outOfFuel => bytesOfString "out of fuel"
  | .closedConn => bytesOfString "use of closed network connection"
  | .timeoutErr => bytesOfString "i/o timeout"
  | .srvMsg m => m
  | .injected m => m

/-- The `nilFormatted` constant `"$-1\r\n"`. -/
def nilFormatted : List Nat :=
  bytesOfString "$-1\r\n"

/-- `writeBytes` of `resp.go`: the bulk-string encoding
`$<len>\r\n<payload>\r\n` of a byte slice. -/
def writeBytes (b : List Nat) : List Nat :=
  36 :: natDigits b.length ++ [13, 10] ++ b ++ [13, 10]

/-- `writeArrayHeader` of `resp.go`: `*<count>\r\n`. -/
def writeArrayHeader (l : Nat) : List Nat :=
  42 :: natDigits l ++ [13, 10]

/-- `writeNil`: an empty bulk string under `forceString`, the `$-1\r\n`
constant otherwise. -/
def writeNilVal (forceString : Bool) : List Nat :=
  if forceString then writeBytes [] else nilFormatted

/-- `writeInt`: the decimal text as a bulk string under `forceString`, an
`:<digits>\r\n` integer message otherwise. -/
def writeIntVal (forceString : Bool) (i : Int) : List Nat :=
  if forceString then writeBytes (intToDigits i)
  else 58 :: intToDigits i ++ [13, 10]

/-- `writeError`: the message text as a bulk string under `forceString`, a
`-<text>\r\n` error message otherwise. -/
def writeErrVal (forceString : Bool) (e : GoErr) : List Nat :=
  if forceString then writeBytes (errText e)
  else 45 :: errText e ++ [13, 10]

mutual
/-- The shapes of `interface{}` command arguments the encoder's type switch
distinguishes.  `floatv` carries the `strconv.AppendFloat` rendering of the
float and `other` the `fmt.Sprint` rendering of an unrecognized value, since
the repository only forwards those library renderings; `respv` carries the
`val` payload of a `Resp`/`*Resp` argument, the only field the encoder ever
reads from it; the integer widths collapsed by `intv()` are a single `intv`
constructor. -/
inductive GoVal where
  | bytes (b : List Nat)
  | str (s : List Nat)
  | boolv (b : Bool)
  | vnil
  | intv (i : Int)
  | floatv (text : List Nat)
  | errv (e : GoErr)
  | respv (val : RVal)
  | slice (l : GoValList)
  | mapv (l : GoPairList)
  | other (text : List Nat)

/-- A Go slice of arguments (`[]interface{}` or any other slice kind). -/
inductive GoValList where
  | nil
  | cons (v : GoVal) (l : GoValList)

/-- A Go map of arguments, as its (iteration-ordered) entry list. -/
inductive GoPairList where
  | nil
  | cons (k v : GoVal) (l : GoPairList)
end

/-- Length of a `GoValList`. -/
def GoValList.length : GoValList → Nat
  | .nil => 0
  | .cons _ l => 1 + l.length

/-- Number of entries of a `GoPairList`. -/
def GoPairList.length : GoPairList → Nat
  | .nil => 0
  | .cons _ _ l => 1 + l.length

mutual
/-- `flattenedLength` restricted to one `Resp.val` payload: a nil, byte-slice,
int64 or error payload counts one, a `[]Resp` payload goes through the slice
branch, whose elements re-enter through the `Resp` branch. -/
def flattenedLengthRVal : RVal → Nat
  | .vnil => 1
  | .bytes _ => 1
  | .intv _ => 1
  | .errv _ => 1
  | .arr elems => flattenedLengthResps elems

/-- `flattenedSliceLength` on a `[]Resp` payload. -/
def flattenedLengthResps : List Resp → Nat
  | [] => 0
  | .mk _ _ v :: rs => flattenedLengthRVal v + flattenedLengthResps rs
end

mutual
/-- The per-argument type switch of `flattenedLength` of `resp.go`: byte
slices, strings, bools, nil, all integer and float widths, errors and
unrecognized non-container values count one; a `Resp` counts the flattened
length of its `val`; any other slice and any map recurse. -/
def flattenedValLength : GoVal → Nat
  | .bytes _ => 1
  | .str _ => 1
  | .boolv _ => 1
  | .vnil => 1
  | .intv _ => 1
  | .floatv _ => 1
  | .errv _ => 1
  | .respv v => flattenedLengthRVal v
  | .slice l => flattenedSliceLength l
  | .mapv l => flattenedMapLength l
  | .other _ => 1

/-- `flattenedLength(mm ...)` of `resp.go`: the sum of the per-argument
flattened lengths (also the body of `flattenedSliceLength`). -/
def flattenedSliceLength : GoValList → Nat
  | .nil => 0
  | .cons v l => flattenedValLength v + flattenedSliceLength l

/-- `flattenedMapLength` of `resp.go`: for every entry, the flattened length
of the key plus the flattened length of the value. -/
def flattenedMapLength : GoPairList → Nat
  | .nil => 0
  | .cons k v l => flattenedValLength k + flattenedValLength v + flattenedMapLength l
end

mutual
/-- `writeTo` restricted to a `Resp.val` payload with the given
`forceString`/`noArrayHeader` flags, covering the payload shapes a `Resp`
argument can carry. -/
def writeToRVal : RVal → Bool → Bool → List Nat
  | .vnil, fs, _ => writeNilVal fs
  | .bytes b, _, _ => writeBytes b
  | .intv i, fs, _ => writeIntVal fs i
  | .errv e, fs, _ => writeErrVal fs e
  | .arr elems, fs, nah =>
    (if nah then [] else writeArrayHeader elems.length) ++ writeRespsTo elems fs nah

/-- The `writeSlice` loop over a `[]Resp` payload: each element is a `Resp`,
so `writeTo` recurses into its `val`. -/
def writeRespsTo : List Resp → Bool → Bool → List Nat
  | [], _, _ => []
  | .mk _ _ v :: rs, fs, nah => writeToRVal v fs nah ++ writeRespsTo rs fs nah
end

mutual
/-- `writeTo` of `resp.go` (the bytes it writes on success): byte slices,
strings, bools, floats and unrecognized values are bulk strings; nil,
integers and errors are bulk strings under `forceString` and their native
messages otherwise; a `Resp` recurses into its `val`; slices and maps write
an array header unless `noArrayHeader` is set, then their members in
order. -/
def writeTo : GoVal → Bool → Bool → List Nat
  | .bytes b, _, _ => writeBytes b
  | .str s, _, _ => writeBytes s
  | .boolv b, _, _ => writeBytes [if b then 49 else 48]
  | .vnil, fs, _ => writeNilVal fs
  | .intv i, fs, _ => writeIntVal fs i
  | .floatv t, _, _ => writeBytes t
  | .errv e, fs, _ => writeErrVal fs e
  | .respv v, fs, nah => writeToRVal v fs nah
  | .slice l, fs, nah =>
    (if nah then [] else writeArrayHeader l.length) ++ writeToList l fs nah
  | .mapv l, fs, nah =>
    (if nah then [] else writeArrayHeader (2 * l.length)) ++ writeToPairs l fs nah
  | .other t, _, _ => writeBytes t

/-- The element loop of `writeSlice`/`writeInterface`. -/
def writeToList : GoValList → Bool → Bool → List Nat
  | .nil, _, _ => []
  | .cons v l, fs, nah => writeTo v fs nah ++ writeToList l fs nah

/-- The entry loop of `writeMap`: key then value, per entry. -/
def writeToPairs : GoPairList → Bool → Bool → List Nat
  | .nil, _, _ => []
  | .cons k v l, fs, nah => writeTo k fs nah ++ writeTo v fs nah ++ writeToPairs l fs nah
end

mutual
/-- Spec-side flattening of one `Resp.val` payload into the list of
bulk-string payloads the claim predicts for it. -/
def specElemsRVal : RVal → List (List Nat)
  | .vnil => [[]]
  | .bytes b => [b]
  | .intv i => [intToDigits i]
  | .errv e => [errText e]
  | .arr elems => specElemsResps elems

/-- Spec-side flattening of a `[]Resp` payload. -/
def specElemsResps : List Resp → List (List Nat)
  | [] => []
  | .mk _ _ v :: rs => specElemsRVal v ++ specElemsResps rs
end

mutual
/-- Spec-side flattening rule of the claim: a byte sequence or scalar is one
element (rendered to its bulk-string payload), any other slice contributes
the flattened elements of its members in order, and a map contributes the
flattened elements of each key and each value, per entry. -/
def specElems : GoVal → List (List Nat)
  | .bytes b => [b]
  | .str s => [s]
  | .boolv b => [[if b then 49 else 48]]
  | .vnil => [[]]
  | .intv i => [intToDigits i]
  | .floatv t => [t]
  | .errv e => [errText e]
  | .respv v => specElemsRVal v
  | .slice l => specElemsList l
  | .mapv l => specElemsPairs l
  | .other t => [t]

/-- Spec-side flattening of an argument list. -/
def specElemsList : GoValList → List (List Nat)
  | .nil => []
  | .cons v l => specElems v ++ specElemsList l

/-- Spec-side flattening of a map entry list. -/
def specElemsPairs : GoPairList → List (List Nat)
  | .nil => []
  | .cons k v l => specElems k ++ specElems v ++ specElemsPairs l
end

/-- A sequence of bulk-string encodings, one per payload: the claim's "N
bulk-string elements and no nested array headers" normal form. -/
def bulkJoin (ls : List (List Nat)) : List Nat :=
  (ls.map writeBytes).flatten

/-! ## Client (`part_003`) -/

/-- A pending request of the client: command name and arguments. -/
structure Req where
  cmd : List Nat
  args : GoValList

/-- The bytes `Client.writeRequest` serializes for one request: the array
header counting `flattenedLength(args...) + 1` elements, the command name via
`writeTo(..., cmd, true, true)`, then each argument via
`writeTo(..., arg, true, true)`. -/
def encodeReq (r : Req) : List Nat :=
  writeArrayHeader (flattenedSliceLength r.args + 1) ++
    writeTo (.str r.cmd) true true ++ writeToList r.args true true

/-- The `net.Conn` transport: whether `Close` has been called, the bytes the
server has made available to read, the bytes written so far, and an optional
injected write fault (a failing socket).  A write on a closed or faulted
connection fails. -/
structure Conn where
  closed : Bool
  input : List Nat
  output : List Nat
  failWrite : Option GoErr

/-- One `bytes.Buffer.WriteTo(conn)` flush: fails on a closed connection or
with the injected fault, otherwise appends the bytes to the wire. -/
def connWrite (cn : Conn) (b : List Nat) : Except GoErr Conn :=
  if cn.closed then .error .closedConn
  else
    match cn.failWrite with
    | some e => .error e
    | none => .ok { cn with output := cn.output ++ b }

/-- The `Client` struct of the client file, restricted to the fields the
embedded operations read or write: the transport handle (`nil` before the
first `Connect`), `LastCritical`, and the `pending`/`completed` queues.  The
`respReader` buffer is the `input` of the owned `Conn`; `writeScratch` and
`writeBuf` are pure scratch space with no observable state. -/
structure Client where
  conn : Option Conn
  lastCritical : Option GoErr
  pending : List Req
  completed : List Resp

/-- `Client.Close`: closes the transport handle.  The handle itself stays in
place (the Go code never sets `c.conn` back to `nil`). -/
def closeClientConn (c : Client) : Client :=
  match c.conn with
  | none => c
  | some cn => { c with conn := some { cn with closed := true } }

/-- `Client.writeRequest`: serialize and flush each request in order; the
first flush failure is recorded in `LastCritical` and closes the
connection.  (The read-deadline arming at the top touches no modelled
state.) -/
def writeRequest (c : Client) (reqs : List Req) : Option GoErr × Client :=
  match c.conn with
  | none => (some .notConnected, c)  -- unreachable: all callers check conn first
  | some cn =>
    let rec go : List Req → Conn → Option GoErr × Conn
      | [], cn1 => (none, cn1)
      | r :: rest, cn1 =>
        match connWrite cn1 (encodeReq r) with
        | .error e => (some e, cn1)
        | .ok cn2 => go rest cn2
    match go reqs cn with
    | (none, cn1) => (none, { c with conn := some cn1 })
    | (some e, cn1) =>
      (some e, closeClientConn { c with conn := some cn1, lastCritical := some e })

/-- `Client.readResp`: decode one reply from the reader; an `ERR_IO` reply
that is strict or not a timeout records `LastCritical` and closes the
connection.  (Reading consumes the reader's buffered bytes, which a `Close`
does not discard, so the closed flag is not consulted here.) -/
def readResp (c : Client) (strict : Bool) : Resp × Client :=
  match c.conn with
  | none => (errToResp IO_ERR .notConnected, c)  -- unreachable: callers check conn
  | some cn =>
    let p := readOneResp cn.input
    let c1 : Client := { c with conn := some { cn with input := p.snd } }
    if p.fst.HasType IO_ERR && (strict || !isTimeout p.fst) then
      (p.fst, closeClientConn { c1 with lastCritical := p.fst.err })
    else
      (p.fst, c1)

/-- `Client.Cmd`: a `nil` handle yields the `ErrNotConnected` resp; otherwise
one request is written and flushed, a write failure yields an `ERR_IO` resp,
and otherwise one reply is read strictly. -/
def cmd (c : Client) (r : Req) : Resp × Client :=
  match c.conn with
  | none => (errToResp IO_ERR .notConnected, c)
  | some _ =>
    match writeRequest c [r] with
    | (some e, c1) => (errToResp IO_ERR e, c1)
    | (none, c1) => readResp c1 true

/-- `Client.PipeAppend`: append one request to the pending queue; no I/O. -/
def pipeAppend (c : Client) (r : Req) : Client :=
  { c with pending := c.pending ++ [r] }

/-- `PipeAppend` over a whole batch, in order. -/
def pipeAppendAll (c : Client) (rs : List Req) : Client :=
  rs.foldl pipeAppend c

/-- The reply-draining loop of `Client.PipeResp`: read `n` strict replies in
order, appending each to the completed queue. -/
def readMany (c : Client) : Nat → List Resp × Client
  | 0 => ([], c)
  | n + 1 =>
    let p := readResp c true
    let q := readMany p.snd n
    (p.fst :: q.fst, q.snd)

/-- `Client.PipeResp`: a `nil` handle yields `ErrNotConnected`; a non-empty
completed queue is popped FIFO; empty pending and completed queues yield the
`ErrEmptyPipeline` resp (typed `ERR_REDIS`) with no state change; otherwise
the whole pending queue is flushed as one batch, cleared, a write failure
yields an `ERR_IO` resp, and otherwise as many replies as requests are read
into the completed queue.  The source then recurses; after a flush the
completed queue holds one reply per flushed request and the handle is still
present, so the recursive call reduces to the FIFO pop inlined here (the
empty case is unreachable because at least one request was flushed). -/
def pipeResp (c : Client) : Resp × Client :=
  match c.conn with
  | none => (errToResp IO_ERR .notConnected, c)
  | some _ =>
    match c.completed with
    | r :: rest => (r, { c with completed := rest })
    | [] =>
      match c.pending with
      | [] => (errToResp ERR_REDIS .emptyPipeline, c)
      | q :: qs =>
        let nreqs := (q :: qs).length
        match writeRequest c (q :: qs) with
        | (some e, c1) => (errToResp IO_ERR e, { c1 with pending := [] })
        | (none, c1) =>
          let c2 := { c1 with pending := [] }
          let p := readMany c2 nreqs
          match p.fst with
          | r :: rs => (r, { p.snd with completed := rs })
          | [] => (errToResp ERR_REDIS .emptyPipeline, { p.snd with completed := [] })

/-- Iterated `PipeResp`: the replies of `n` successive calls, in order. -/
def runPipeResps (c : Client) : Nat → List Resp × Client
  | 0 => ([], c)
  | n + 1 =>
    let p := pipeResp c
    let q := runPipeResps p.snd n
    (p.fst :: q.fst, q.snd)

/-- `Client.Connect`: the dial outcome (an external event) is passed as an
argument.  A dial failure stores the `nil` handle and reports the error; a
successful dial installs the fresh transport, binds a fresh reader to it,
resets the write buffer, and resets the completed queue (and its backing
head) to a fresh empty queue.  Neither `pending` nor `LastCritical` is
touched. -/
def connect (c : Client) (dialResult : Except GoErr Conn) : Option GoErr × Client :=
  match dialResult with
  | .error e => (some e, { c with conn := none })
  | .ok cn => (none, { c with conn := some cn, completed := [] })

/-! ## Theorems -/

/-- Byte list of the `$-1\r\n` fixture. -/
theorem bytesOfNilBulk : bytesOfString "$-1\r\n" = [36, 45, 49, 13, 10] := by decide

/-- C2: the decoder maps each literal byte fixture to exactly the stated
reply value: `$8\r\nTEST1234\r\n` to the bulk string `TEST1234`, `$0\r\n\r\n`
to the empty bulk string, `$-1\r\n` to protocol nil consuming no byte beyond
the length line, `*2\r\n+TEST\r\n+1234\r\n` to the two-element array of the
simple strings `TEST` and `1234` in that order, `*0\r\n` to an empty array
that is not `NIL`-typed, and `*-1\r\n` to protocol nil. -/
theorem c2_decoder_fixtures :
    respRead (bytesOfString "$8\r\nTEST1234\r\n") =
      .mk none STR_BULK (.bytes (bytesOfString "TEST1234")) ∧
    respRead (bytesOfString "$0\r\n\r\n") = .mk none STR_BULK (.bytes []) ∧
    (∀ extra : List Nat,
      readOneResp (bytesOfString "$-1\r\n" ++ extra) = (.mk none NIL .vnil, extra)) ∧
    respRead (bytesOfString "*2\r\n+TEST\r\n+1234\r\n") =
      .mk none ARRAY (.arr [.mk none STR_SIMPLE (.bytes (bytesOfString "TEST")),
        .mk none STR_SIMPLE (.bytes (bytesOfString "1234"))]) ∧
    respRead (bytesOfString "*0\r\n") = .mk none ARRAY (.arr []) ∧
    (respRead (bytesOfString "*0\r\n")).HasType NIL = false ∧
    respRead (bytesOfString "*-1\r\n") = .mk none NIL .vnil := by
  refine ⟨rfl, rfl, ?_, rfl, rfl, rfl, rfl⟩
  intro extra
  rw [bytesOfNilBulk]
  simp [readOneResp, bufioReadResp, readBulkStr, readLine, lineContent, parseInt64,
    parseDigits, parseDigitsAux]

/-- C5: a message whose first line is terminated but too short to contain the
CRLF terminator — the type byte directly followed by a newline, with any
trailing stream — decodes to the parse error for each of the five message
types, wrapped by the top-level reader as an `ERR_IO` reply; the decoder is a
total function, so no input can make it fail in any other way than by
returning such an error reply. -/
theorem c5_short_line_is_parse_error (rest : List Nat) :
    respRead (43 :: 10 :: rest) = errToResp IO_ERR .parse ∧
    respRead (45 :: 10 :: rest) = errToResp IO_ERR .parse ∧
    respRead (58 :: 10 :: rest) = errToResp IO_ERR .parse ∧
    respRead (36 :: 10 :: rest) = errToResp IO_ERR .parse ∧
    respRead (42 :: 10 :: rest) = errToResp IO_ERR .parse := by
  refine ⟨?_, ?_, ?_, ?_, ?_⟩ <;>
    simp [respRead, readOneResp, bufioReadResp, readSimpleStr, readError, readInt,
      readBulkStr, readArray, readLine]

/-- Every byte accepted by the digit accumulator is a decimal digit. -/
theorem parseDigitsAux_digits :
    ∀ (l : List Nat) (acc n : Nat), parseDigitsAux l acc = some n →
      ∀ c ∈ l, 48 ≤ c ∧ c ≤ 57 := by
  intro l
  induction l with
  | nil => intro acc n _ c hc; cases hc
  | cons b bs ih =>
    intro acc n h c hc
    rw [parseDigitsAux] at h
    by_cases hb : 48 ≤ b ∧ b ≤ 57
    · rw [if_pos hb] at h
      rcases List.mem_cons.mp hc with hc | hc
      · exact hc ▸ hb
      · exact ih _ n h c hc
    · rw [if_neg hb] at h
      cases h

/-- A byte list that `strconv.ParseInt` accepts contains no newline byte. -/
theorem parseInt64_no_newline (l : List Nat) (n : Int)
    (h : parseInt64 l = some n) : ∀ c ∈ l, c ≠ 10 := by
  have digits : ∀ (d : List Nat) (m : Nat), parseDigits d = some m → ∀ x ∈ d, x ≠ 10 := by
    intro d m hm x hx
    cases d with
    | nil => cases hx
    | cons y ys =>
      have hd := parseDigitsAux_digits (y :: ys) 0 m hm x hx
      omega
  cases l with
  | nil => intro c hc; cases hc
  | cons b bs =>
    intro c hc
    simp only [parseInt64] at h
    rcases hpd : parseDigits (if b = 43 ∨ b = 45 then bs else b :: bs) with _ | m
    · rw [hpd] at h; cases h
    · by_cases hb : b = 43 ∨ b = 45
      · rw [if_pos hb] at hpd
        rcases List.mem_cons.mp hc with hc | hc
        · omega
        · exact digits bs m hpd c hc
      · rw [if_neg hb] at hpd
        exact digits (b :: bs) m hpd c hc

/-- `ReadBytes('\n')` on a newline-free prefix followed by the CRLF
terminator returns exactly that terminated line; the rest of the stream is
untouched. -/
theorem readLine_terminated (ds : List Nat) (hds : ∀ c ∈ ds, c ≠ 10) (rest : List Nat) :
    readLine (ds ++ 13 :: 10 :: rest) = .ok (ds ++ [13, 10], rest) := by
  induction ds with
  | nil => simp [readLine]
  | cons c cs ih =>
    have hc : c ≠ 10 := hds c (List.mem_cons_self c cs)
    have ih2 := ih (fun x hx => hds x (List.mem_cons_of_mem c hx))
    rw [List.cons_append, readLine, if_neg hc, ih2]
    simp

/-- The `b[1 : len(b)-2]` slice of a terminated line is its payload. -/
theorem lineContent_terminated (p : Nat) (ds : List Nat) :
    lineContent (p :: ds ++ [13, 10]) = ds := by
  have h1 : p :: ds ++ [13, 10] = (p :: ds ++ [13]) ++ [10] := by simp
  simp [lineContent, h1]

/-- C4: a bulk-string message whose declared length parses to a value above
the `512*1024*1024` ceiling is rejected by `readBulkStr` with the
"response too large" error, and by the top-level reader with that error
wrapped as an `ERR_IO` reply, whatever bytes follow the length line — the
payload is never read. -/
theorem c4_bulk_too_big (ds rest : List Nat) (n : Int)
    (hparse : parseInt64 ds = some n) (hbig : 512 * 1024 * 1024 < n) :
    readBulkStr (36 :: ds ++ 13 :: 10 :: rest) = .error .respTooBig ∧
    respRead (36 :: ds ++ 13 :: 10 :: rest) = errToResp IO_ERR .respTooBig := by
  have hds : ∀ c ∈ ds, c ≠ 10 := parseInt64_no_newline ds n hparse
  have hline : readLine (36 :: ds ++ 13 :: 10 :: rest) =
      .ok (36 :: ds ++ [13, 10], rest) := by
    have h36 : ∀ c ∈ 36 :: ds, c ≠ 10 := by
      intro c hc
      rcases List.mem_cons.mp hc with hc | hc
      · omega
      · exact hds c hc
    simpa using readLine_terminated (36 :: ds) h36 rest
  have hlen : ¬ (36 :: ds ++ [13, 10]).length < 3 := by simp
  have hcontent : lineContent (36 :: ds ++ [13, 10]) = ds := lineContent_terminated 36 ds
  have hbulk : readBulkStr (36 :: ds ++ 13 :: 10 :: rest) = .error .respTooBig := by
    simp only [readBulkStr, hline, hlen, if_false, hcontent, hparse, hbig, if_true]
  refine ⟨hbulk, ?_⟩
  have hb2 : readBulkStr (36 :: (ds ++ 13 :: 10 :: rest)) = .error .respTooBig := by
    rw [← List.cons_append]; exact hbulk
  simp only [respRead, readOneResp, List.cons_append, bufioReadResp]
  simp [hb2]

/-- Witness for C4: the oversized length line the repository's own test uses
(`$1000000000000000\n`-style input) satisfies the hypotheses and is
rejected. -/
theorem c4_bulk_too_big_witness :
    parseInt64 (bytesOfString "1000000000000000") = some 1000000000000000 ∧
    readBulkStr (36 :: bytesOfString "1000000000000000" ++ 13 :: 10 :: []) =
      .error .respTooBig := by
  refine ⟨by decide, ?_⟩
  exact (c4_bulk_too_big (bytesOfString "1000000000000000") [] 1000000000000000
    (by decide) (by decide)).1
/-- `HasType` on a literal `Resp.mk` reduces to a bitmask test. -/
theorem hasTypeMk (e : Option GoErr) (t : Nat) (v : RVal) (tt : Nat) :
    (Resp.mk e t v).HasType tt = decide (0 < t &&& tt) := rfl

/-- A successful `readSimpleStr` yields an error-free `STR_SIMPLE` reply. -/
theorem readSimpleStr_shape {s : List Nat} {r : Resp} {rest : List Nat}
    (h : readSimpleStr s = .ok (r, rest)) :
    ∃ b, r = .mk none STR_SIMPLE (.bytes b) := by
  unfold readSimpleStr at h
  split at h
  · exact Except.noConfusion h
  · split at h
    · exact Except.noConfusion h
    · simp only [Except.ok.injEq, Prod.mk.injEq] at h
      exact ⟨_, h.1.symm⟩

/-- A successful `readError` yields an `ERR_REDIS` reply carrying the server
message as both its error and its payload. -/
theorem readError_shape {s : List Nat} {r : Resp} {rest : List Nat}
    (h : readError s = .ok (r, rest)) :
    ∃ m, r = .mk (some (.srvMsg m)) ERR_REDIS (.errv (.srvMsg m)) := by
  unfold readError at h
  split at h
  · exact Except.noConfusion h
  · split at h
    · exact Except.noConfusion h
    · simp only [Except.ok.injEq, Prod.mk.injEq, errToResp] at h
      exact ⟨_, h.1.symm⟩

/-- A successful `readInt` yields an error-free `INT` reply. -/
theorem readInt_shape {s : List Nat} {r : Resp} {rest : List Nat}
    (h : readInt s = .ok (r, rest)) :
    ∃ i, r = .mk none INT (.intv i) := by
  unfold readInt at h
  split at h
  · exact Except.noConfusion h
  · split at h
    · exact Except.noConfusion h
    · split at h
      · exact Except.noConfusion h
      · simp only [Except.ok.injEq, Prod.mk.injEq] at h
        exact ⟨_, h.1.symm⟩

/-- A successful `readBulkStr` yields either the protocol-nil reply or an
error-free `STR_BULK` reply. -/
theorem readBulkStr_shape {s : List Nat} {r : Resp} {rest : List Nat}
    (h : readBulkStr s = .ok (r, rest)) :
    r = .mk none NIL .vnil ∨ ∃ b, r = .mk none STR_BULK (.bytes b) := by
  unfold readBulkStr at h
  split at h
  · exact Except.noConfusion h
  · split at h
    · exact Except.noConfusion h
    · split at h
      · exact Except.noConfusion h
      · split at h
        · exact Except.noConfusion h
        · split at h
          · simp only [Except.ok.injEq, Prod.mk.injEq] at h
            exact Or.inl h.1.symm
          · split at h
            · exact Except.noConfusion h
            · split at h
              · simp only [Except.ok.injEq, Prod.mk.injEq] at h
                exact Or.inr ⟨_, h.1.symm⟩
              · exact Except.noConfusion h

/-- A successful `readArray` (for any recursive reader) yields either the
protocol-nil reply or an error-free `ARRAY` reply. -/
theorem readArray_shape {recur : List Nat → Except GoErr (Resp × List Nat)}
    {s : List Nat} {r : Resp} {rest : List Nat}
    (h : readArray recur s = .ok (r, rest)) :
    r = .mk none NIL .vnil ∨ ∃ elems, r = .mk none ARRAY (.arr elems) := by
  unfold readArray at h
  split at h
  · exact Except.noConfusion h
  · split at h
    · exact Except.noConfusion h
    · split at h
      · exact Except.noConfusion h
      · split at h
        · simp only [Except.ok.injEq, Prod.mk.injEq] at h
          exact Or.inl h.1.symm
        · split at h
          · exact Except.noConfusion h
          · simp only [Except.ok.injEq, Prod.mk.injEq] at h
            exact Or.inr ⟨_, h.1.symm⟩

/-- Every reply `bufioReadResp` decodes successfully is either error-free
with a non-error type bit, or a server error reply whose error and payload
are the same `errors.New` value. -/
theorem bufioReadResp_shape {fuel : Nat} {s : List Nat} {r : Resp} {rest : List Nat}
    (h : bufioReadResp fuel s = .ok (r, rest)) :
    (r.err = none ∧ r.HasType ERR_ANY = false) ∨
    (∃ e, r.err = some e ∧ r.val = .errv e ∧ r.HasType ERR_ANY = true) := by
  match fuel, s with
  | 0, _ => exact Except.noConfusion h
  | _ + 1, [] => exact Except.noConfusion h
  | f + 1, b :: rest1 =>
    simp only [bufioReadResp] at h
    split at h
    · rcases readSimpleStr_shape h with ⟨bb, rfl⟩
      refine Or.inl ⟨rfl, ?_⟩
      rw [hasTypeMk]; decide
    · split at h
      · rcases readError_shape h with ⟨m, rfl⟩
        refine Or.inr ⟨.srvMsg m, rfl, rfl, ?_⟩
        rw [hasTypeMk]; decide
      · split at h
        · rcases readInt_shape h with ⟨i, rfl⟩
          refine Or.inl ⟨rfl, ?_⟩
          rw [hasTypeMk]; decide
        · split at h
          · rcases readBulkStr_shape h with rfl | ⟨bb, rfl⟩
            · refine Or.inl ⟨rfl, ?_⟩
              rw [hasTypeMk]; decide
            · refine Or.inl ⟨rfl, ?_⟩
              rw [hasTypeMk]; decide
          · split at h
            · rcases readArray_shape h with rfl | ⟨elems, rfl⟩
              · refine Or.inl ⟨rfl, ?_⟩
                rw [hasTypeMk]; decide
              · refine Or.inl ⟨rfl, ?_⟩
                rw [hasTypeMk]; decide
            · exact Except.noConfusion h

/-- C10: every reply the top-level reader produces satisfies the error
invariant — the `Err` field is set exactly when the reply's type is one of
the error types (`HasType ERR`), in which case the stored payload is that
same error value; a successfully decoded non-error reply carries no
error. -/
theorem c10_read_error_invariant (s : List Nat) :
    ((respRead s).err = none ∧ (respRead s).HasType ERR_ANY = false) ∨
    (∃ e, (respRead s).err = some e ∧ (respRead s).val = .errv e ∧
      (respRead s).HasType ERR_ANY = true) := by
  unfold respRead readOneResp
  rcases hb : bufioReadResp (s.length + 1) s with e | ⟨r, rest⟩
  · right
    refine ⟨e, rfl, rfl, ?_⟩
    show (errToResp IO_ERR e).HasType ERR_ANY = true
    simp only [errToResp]
    rw [hasTypeMk]; decide
  · simpa using bufioReadResp_shape hb

/-- C9: `Float64` accepts a reply only if its raw stored value is
byte-string shaped, for every float parser: an `INT`-typed reply whose
payload is the decoded `int64` is rejected with the string-conversion error
even though it is numerically convertible, while a string-typed reply whose
bytes the parser accepts yields exactly the parsed number. -/
theorem c9_float64_strict {F : Type} (parse : List Nat → Except GoErr F) :
    (∀ (r : Resp) (i : Int), r.err = none → r.typ = INT → r.val = .intv i →
      respFloat64 parse r = .error .notStr) ∧
    (∀ (r : Resp) (b : List Nat) (x : F), r.err = none → r.HasType STR = true →
      r.val = .bytes b → parse b = .ok x → respFloat64 parse r = .ok x) := by
  constructor
  · intro r i herr htyp hval
    unfold respFloat64
    rw [herr, hval]
  · intro r b x herr hstr hval hp
    unfold respFloat64
    rw [herr, hval]
    exact hp

/-- Witness for C9: with a concrete parser that accepts the bytes `50`, the
integer reply `:50` is rejected while the simple-string reply `+50` parses
to the number. -/
theorem c9_float64_strict_witness :
    respFloat64 (fun b => if b = [53, 48] then .ok (50 : Int) else .error .parse)
      (.mk none INT (.intv 50)) = .error .notStr ∧
    respFloat64 (fun b => if b = [53, 48] then .ok (50 : Int) else .error .parse)
      (.mk none STR_SIMPLE (.bytes [53, 48])) = .ok 50 := by
  constructor
  · exact (c9_float64_strict _).1 (.mk none INT (.intv 50)) 50 rfl rfl rfl
  · exact (c9_float64_strict _).2 (.mk none STR_SIMPLE (.bytes [53, 48])) [53, 48] 50
      rfl (by rw [hasTypeMk]; decide) rfl rfl
/-- `bulkJoin` distributes over append. -/
theorem bulkJoin_append (xs ys : List (List Nat)) :
    bulkJoin (xs ++ ys) = bulkJoin xs ++ bulkJoin ys := by
  simp [bulkJoin]

/-- `bulkJoin` of a single payload is its bulk encoding. -/
theorem bulkJoin_single (x : List Nat) : bulkJoin [x] = writeBytes x := by
  simp [bulkJoin]

mutual
/-- Under `forceString` and `noArrayHeader`, the encoder renders a `Resp`
payload as exactly the bulk encodings of its spec-side flattened elements,
and the element count is its flattened length. -/
theorem writeToRVal_flat : ∀ (v : RVal),
    writeToRVal v true true = bulkJoin (specElemsRVal v) ∧
    (specElemsRVal v).length = flattenedLengthRVal v
  | .vnil => by
    refine ⟨?_, rfl⟩
    simp [writeToRVal, specElemsRVal, writeNilVal, bulkJoin_single]
  | .bytes b => by
    refine ⟨?_, rfl⟩
    simp [writeToRVal, specElemsRVal, bulkJoin_single]
  | .intv i => by
    refine ⟨?_, rfl⟩
    simp [writeToRVal, specElemsRVal, writeIntVal, bulkJoin_single]
  | .errv e => by
    refine ⟨?_, rfl⟩
    simp [writeToRVal, specElemsRVal, writeErrVal, bulkJoin_single]
  | .arr elems => by
    have h := writeRespsTo_flat elems
    constructor
    · simp [writeToRVal, specElemsRVal, h.1]
    · simp [specElemsRVal, flattenedLengthRVal, h.2]

/-- The `[]Resp` loop preserves the flattening normal form. -/
theorem writeRespsTo_flat : ∀ (rs : List Resp),
    writeRespsTo rs true true = bulkJoin (specElemsResps rs) ∧
    (specElemsResps rs).length = flattenedLengthResps rs
  | [] => by
    refine ⟨?_, rfl⟩
    simp [writeRespsTo, specElemsResps, bulkJoin]
  | .mk e t v :: rs => by
    have h1 := writeToRVal_flat v
    have h2 := writeRespsTo_flat rs
    constructor
    · simp [writeRespsTo, specElemsResps, bulkJoin_append, h1.1, h2.1]
    · simp [specElemsResps, flattenedLengthResps, h1.2, h2.2]
end

mutual
/-- Under `forceString` and `noArrayHeader`, `writeTo` renders any argument
as exactly the bulk encodings of its spec-side flattened elements, whose
count is the argument's flattened length: no array headers are ever
emitted. -/
theorem writeTo_flat : ∀ (v : GoVal),
    writeTo v true true = bulkJoin (specElems v) ∧
    (specElems v).length = flattenedValLength v
  | .bytes b => by
    refine ⟨?_, rfl⟩
    simp [writeTo, specElems, bulkJoin_single]
  | .str s => by
    refine ⟨?_, rfl⟩
    simp [writeTo, specElems, bulkJoin_single]
  | .boolv b => by
    refine ⟨?_, rfl⟩
    simp [writeTo, specElems, bulkJoin_single]
  | .vnil => by
    refine ⟨?_, rfl⟩
    simp [writeTo, specElems, writeNilVal, bulkJoin_single]
  | .intv i => by
    refine ⟨?_, rfl⟩
    simp [writeTo, specElems, writeIntVal, bulkJoin_single]
  | .floatv t => by
    refine ⟨?_, rfl⟩
    simp [writeTo, specElems, bulkJoin_single]
  | .errv e => by
    refine ⟨?_, rfl⟩
    simp [writeTo, specElems, writeErrVal, bulkJoin_single]
  | .respv v => by
    have h := writeToRVal_flat v
    exact ⟨by simpa [writeTo, specElems] using h.1, by simpa [specElems, flattenedValLength] using h.2⟩
  | .slice l => by
    have h := writeToList_flat l
    constructor
    · simp [writeTo, specElems, h.1]
    · simp [specElems, flattenedValLength, h.2]
  | .mapv l => by
    have h := writeToPairs_flat l
    constructor
    · simp [writeTo, specElems, h.1]
    · simp [specElems, flattenedValLength, h.2]
  | .other t => by
    refine ⟨?_, rfl⟩
    simp [writeTo, specElems, bulkJoin_single]

/-- The slice loop preserves the flattening normal form. -/
theorem writeToList_flat : ∀ (l : GoValList),
    writeToList l true true = bulkJoin (specElemsList l) ∧
    (specElemsList l).length = flattenedSliceLength l
  | .nil => by
    refine ⟨?_, rfl⟩
    simp [writeToList, specElemsList, bulkJoin]
  | .cons v l => by
    have h1 := writeTo_flat v
    have h2 := writeToList_flat l
    constructor
    · simp [writeToList, specElemsList, bulkJoin_append, h1.1, h2.1]
    · simp [specElemsList, flattenedSliceLength, h1.2, h2.2]

/-- The map-entry loop preserves the flattening normal form. -/
theorem writeToPairs_flat : ∀ (l : GoPairList),
    writeToPairs l true true = bulkJoin (specElemsPairs l) ∧
    (specElemsPairs l).length = flattenedMapLength l
  | .nil => by
    refine ⟨?_, rfl⟩
    simp [writeToPairs, specElemsPairs, bulkJoin]
  | .cons k v l => by
    have hk := writeTo_flat k
    have hv := writeTo_flat v
    have hl := writeToPairs_flat l
    constructor
    · simp [writeToPairs, specElemsPairs, bulkJoin_append, hk.1, hv.1, hl.1]
    · simp [specElemsPairs, flattenedMapLength, hk.2, hv.2, hl.2, Nat.add_assoc]
end

/-- C3: the bytes `writeRequest` serializes for a command are an array header
announcing `N` elements followed by exactly `N` bulk-string encodings and no
nested array headers, where `N` is one (the command name) plus the flattened
length of the arguments, flattened by the rule: a byte sequence or scalar is
one element, any other slice contributes the flattened counts of its members
recursively, and a map contributes the flattened counts of each key and each
value, recursively. -/
theorem c3_request_wire_shape (r : Req) :
    encodeReq r = writeArrayHeader (1 + flattenedSliceLength r.args) ++
      bulkJoin (r.cmd :: specElemsList r.args) ∧
    (r.cmd :: specElemsList r.args).length = 1 + flattenedSliceLength r.args := by
  have h := writeToList_flat r.args
  constructor
  · show writeArrayHeader (flattenedSliceLength r.args + 1) ++
      writeTo (.str r.cmd) true true ++ writeToList r.args true true = _
    rw [h.1, Nat.add_comm (flattenedSliceLength r.args) 1]
    simp [writeTo, bulkJoin, List.append_assoc]
  · simp [h.2, Nat.add_comm]
/-- An all-string reply element: no error, a string type bit, not nil-typed,
and a byte-slice payload. -/
def isStrElem (r : Resp) : Bool :=
  r.err == none && r.HasType STR && !r.HasType NIL &&
    (match r.val with | .bytes _ => true | _ => false)

/-- The byte payload of a reply (empty for non-byte payloads). -/
def payloadBytes (r : Resp) : List Nat :=
  match r.val with
  | .bytes b => b
  | _ => []

/-- The consecutive key/value pairs of an element list, as byte payloads. -/
def pairsOf : List Resp → List (List Nat × List Nat)
  | [] => []
  | [_] => []
  | k :: v :: rest => (payloadBytes k, payloadBytes v) :: pairsOf rest

/-- A Go map built by inserting each pair in order into an empty map. -/
def goMapOfPairs (ps : List (List Nat × List Nat)) : List (List Nat × List Nat) :=
  ps.foldl (fun m p => goMapInsert m p.1 p.2) []

/-- An all-string element answers `Str()` with its byte payload. -/
theorem isStrElem_str {r : Resp} (h : isStrElem r = true) :
    r.Str = .ok (payloadBytes r) ∧ r.HasType NIL = false := by
  simp only [isStrElem, Bool.and_eq_true, beq_iff_eq, Bool.not_eq_eq_eq_not,
    Bool.not_true] at h
  obtain ⟨⟨⟨herr, hstr⟩, hnil⟩, hval⟩ := h
  refine ⟨?_, hnil⟩
  unfold Resp.Str Resp.Bytes
  rw [herr, hnil, hstr]
  simp only [Bool.not_true, Bool.false_eq_true, if_false, if_true]
  match hv : r.val with
  | .bytes b => simp [payloadBytes, hv]
  | .vnil | .intv _ | .arr _ | .errv _ => rw [hv] at hval; cases hval

/-- Inserting a fresh key appends the pair. -/
theorem goMapInsert_fresh (m : List (List Nat × List Nat)) (k v : List Nat)
    (h : k ∉ m.map Prod.fst) : goMapInsert m k v = m ++ [(k, v)] := by
  induction m with
  | nil => rfl
  | cons p rest ih =>
    obtain ⟨k1, v1⟩ := p
    simp only [List.map_cons, List.mem_cons] at h
    push_neg at h
    rw [goMapInsert, if_neg (fun hk => h.1 hk.symm)]
    rw [ih h.2]
    simp

/-- The key/value loop, on an even run of all-string elements, is the fold of
the Go map insertions of the consecutive pairs. -/
theorem respMapLoop_ok : ∀ (a : List Resp) (m : List (List Nat × List Nat)),
    a.length % 2 = 0 → (∀ el ∈ a, isStrElem el = true) →
    respMapLoop a m = .ok ((pairsOf a).foldl (fun m p => goMapInsert m p.1 p.2) m)
  | [], m, _, _ => by simp [respMapLoop, pairsOf]
  | [x], m, heven, _ => by simp at heven
  | k :: v :: rest, m, heven, hall => by
    have hk := isStrElem_str (hall k (by simp))
    have hv := isStrElem_str (hall v (by simp))
    have heven2 : rest.length % 2 = 0 := by
      simp only [List.length_cons] at heven
      omega
    have hall2 : ∀ el ∈ rest, isStrElem el = true := fun el hel =>
      hall el (by simp [hel])
    rw [respMapLoop, hk.1, hv.2]
    simp only [Bool.false_eq_true, if_false]
    rw [hv.1]
    exact respMapLoop_ok rest (goMapInsert m (payloadBytes k) (payloadBytes v)) heven2 hall2

/-- Folding Go map insertions over pairs whose keys are fresh and pairwise
distinct appends them, preserving every pair. -/
theorem goMapFold_fresh : ∀ (ps m : List (List Nat × List Nat)),
    (∀ k ∈ ps.map Prod.fst, k ∉ m.map Prod.fst) → (ps.map Prod.fst).Nodup →
    ps.foldl (fun m p => goMapInsert m p.1 p.2) m = m ++ ps
  | [], m, _, _ => by simp
  | (k, v) :: ps, m, hfresh, hnodup => by
    have h1 : k ∉ m.map Prod.fst := hfresh k (by simp)
    have hnd := hnodup
    simp only [List.map_cons, List.nodup_cons] at hnd
    rw [List.foldl_cons, goMapInsert_fresh m k v h1]
    rw [goMapFold_fresh ps (m ++ [(k, v)])
      (by
        intro k2 hk2
        simp only [List.map_append, List.map_cons, List.map_nil, List.mem_append,
          List.mem_cons, List.not_mem_nil]
        push_neg
        refine ⟨fun hm => hfresh k2 (by simp [hk2]) hm, ?_, fun hf => hf⟩
        intro hkk
        exact hnd.1 (hkk ▸ hk2))
      hnd.2]
    simp

/-- C8: on a reply whose payload is a `[]Resp`, with an even element count
and all elements string-typed, the `Map` accessor succeeds with the Go map
built from the consecutive key/value pairs — losslessly (the result is
exactly the pair list) whenever the keys are pairwise distinct — while an
odd element count fails with the not-a-map error. -/
theorem c8_map_accessor (r : Resp) (a : List Resp)
    (herr : r.err = none) (hval : r.val = .arr a) :
    (a.length % 2 = 0 → (∀ el ∈ a, isStrElem el = true) →
      r.Map = .ok (goMapOfPairs (pairsOf a)) ∧
      (((pairsOf a).map Prod.fst).Nodup → r.Map = .ok (pairsOf a))) ∧
    (a.length % 2 ≠ 0 → r.Map = .error .notMap) := by
  constructor
  · intro heven hall
    have hloop := respMapLoop_ok a [] heven hall
    have hmap : r.Map = .ok (goMapOfPairs (pairsOf a)) := by
      unfold Resp.Map
      rw [herr, hval]
      show (if a.length % 2 ≠ 0 then Except.error GoErr.notMap else respMapLoop a []) = _
      rw [if_neg (by simp [heven])]
      exact hloop
    refine ⟨hmap, fun hnodup => ?_⟩
    rw [hmap]
    unfold goMapOfPairs
    rw [goMapFold_fresh (pairsOf a) [] (by simp) hnodup]
    simp
  · intro hodd
    unfold Resp.Map
    rw [herr, hval]
    show (if a.length % 2 ≠ 0 then Except.error GoErr.notMap else respMapLoop a []) = _
    rw [if_pos hodd]

/-- Witness for C8: a four-element all-string array converts to its two
pairs, and a three-element array is rejected. -/
theorem c8_map_accessor_witness :
    Resp.Map (.mk none ARRAY (.arr
      [.mk none STR_SIMPLE (.bytes (bytesOfString "K1")),
       .mk none STR_BULK (.bytes (bytesOfString "V1")),
       .mk none STR_SIMPLE (.bytes (bytesOfString "K2")),
       .mk none STR_BULK (.bytes (bytesOfString "V2"))])) =
      .ok [(bytesOfString "K1", bytesOfString "V1"),
           (bytesOfString "K2", bytesOfString "V2")] ∧
    Resp.Map (.mk none ARRAY (.arr
      [.mk none STR_SIMPLE (.bytes (bytesOfString "K1")),
       .mk none STR_BULK (.bytes (bytesOfString "V1")),
       .mk none STR_SIMPLE (.bytes (bytesOfString "K2"))])) =
      .error .notMap := by
  constructor
  · have h := (c8_map_accessor
      (.mk none ARRAY (.arr
        [.mk none STR_SIMPLE (.bytes (bytesOfString "K1")),
         .mk none STR_BULK (.bytes (bytesOfString "V1")),
         .mk none STR_SIMPLE (.bytes (bytesOfString "K2")),
         .mk none STR_BULK (.bytes (bytesOfString "V2"))]))
      [.mk none STR_SIMPLE (.bytes (bytesOfString "K1")),
       .mk none STR_BULK (.bytes (bytesOfString "V1")),
       .mk none STR_SIMPLE (.bytes (bytesOfString "K2")),
       .mk none STR_BULK (.bytes (bytesOfString "V2"))] rfl rfl).1
      (by decide) (by decide)
    exact h.2 (by decide)
  · exact (c8_map_accessor
      (.mk none ARRAY (.arr
        [.mk none STR_SIMPLE (.bytes (bytesOfString "K1")),
         .mk none STR_BULK (.bytes (bytesOfString "V1")),
         .mk none STR_SIMPLE (.bytes (bytesOfString "K2"))]))
      [.mk none STR_SIMPLE (.bytes (bytesOfString "K1")),
       .mk none STR_BULK (.bytes (bytesOfString "V1")),
       .mk none STR_SIMPLE (.bytes (bytesOfString "K2"))] rfl rfl).2 (by decide)
/-- A leftover pending request used by the C7 scenario. -/
def c7req : Req :=
  ⟨bytesOfString "PING", .nil⟩

/-- A leftover unclaimed reply used by the C7 scenario. -/
def c7resp : Resp :=
  .mk none STR_SIMPLE (.bytes (bytesOfString "PONG"))

/-- A disconnected client with one leftover pending request and one leftover
completed reply. -/
def c7client : Client :=
  ⟨none, none, [c7req], [c7resp]⟩

/-- A fresh transport installed by the C7 reconnect. -/
def c7conn : Conn :=
  ⟨false, [], [], none⟩

/-- Counterexample for C7: after a successful `Connect` on a client with a
leftover pending request, the pending queue is not empty — `Connect` resets
only the completed queue. -/
theorem c7_counterexample :
    ¬ ((connect c7client (.ok c7conn)).snd.pending = [] ∧
       (connect c7client (.ok c7conn)).snd.completed = []) := by
  intro h
  have hp := h.1
  simp [connect, c7client] at hp

/-- C7 amended: for every prior state, a successful `Connect` installs the
fresh transport and leaves the completed queue empty, reports no error, and
leaves the pending queue exactly as it was. -/
theorem c7_connect_resets_completed_only (c : Client) (cn : Conn) :
    (connect c (.ok cn)).fst = none ∧
    (connect c (.ok cn)).snd.completed = [] ∧
    (connect c (.ok cn)).snd.pending = c.pending ∧
    (connect c (.ok cn)).snd.conn = some cn := by
  simp [connect]
/-- The request used by the C6 scenario. -/
def c6req : Req :=
  ⟨bytesOfString "PING", .nil⟩

/-- The injected socket write fault of the C6 scenario. -/
def c6fault : GoErr :=
  .injected (bytesOfString "write tcp: broken pipe")

/-- A connected client whose next socket write fails. -/
def c6client : Client :=
  ⟨some ⟨false, [], [], some c6fault⟩, none, [], []⟩

/-- Counterexample for C6: after the fatal write error of the first `Cmd`
(which records `LastCritical` and closes the handle), a second `Cmd` fails
with the closed-connection transport error, not with the "not connected"
condition — the handle is closed but never set back to `nil`. -/
theorem c6_counterexample :
    (cmd (cmd c6client c6req).snd c6req).fst.err = some .closedConn ∧
    some GoErr.closedConn ≠ some GoErr.notConnected ∧
    (cmd c6client c6req).snd.lastCritical = some c6fault := by
  refine ⟨rfl, by decide, rfl⟩

/-- C6 amended: a fatal transport error — any write failure, or any read
failure on the strict read paths that `Cmd` and the `PipeResp` flush/drain
use — records the error in `LastCritical` and closes the transport handle.
Afterwards every operation that must touch the wire — any `Cmd`, and any
`PipeResp` whose completed queue is empty and whose pending queue is not —
fails with the closed-connection transport error, re-recorded in
`LastCritical`; a `PipeResp` with buffered completed replies still pops them
FIFO, a `PipeResp` with both queues empty returns the "empty pipeline" usage
reply with untouched state, and the "not connected" reply is produced by
`Cmd` and `PipeResp` only while no connection was ever established (`conn`
absent). -/
theorem c6_fatal_error_behavior :
    (∀ (c : Client) (cn : Conn) (e : GoErr) (r : Req),
      c.conn = some cn → cn.closed = false → cn.failWrite = some e →
      (cmd c r).fst = errToResp IO_ERR e ∧
      (cmd c r).snd.lastCritical = some e ∧
      (∃ cn2, (cmd c r).snd.conn = some cn2 ∧ cn2.closed = true)) ∧
    (∀ (c : Client) (cn : Conn) (e : GoErr) (q : Req) (qs : List Req),
      c.conn = some cn → cn.closed = false → cn.failWrite = some e →
      c.completed = [] → c.pending = q :: qs →
      (pipeResp c).fst = errToResp IO_ERR e ∧
      (pipeResp c).snd.lastCritical = some e ∧
      (pipeResp c).snd.pending = [] ∧
      (∃ cn2, (pipeResp c).snd.conn = some cn2 ∧ cn2.closed = true)) ∧
    (∀ (c : Client) (cn : Conn) (r : Req),
      c.conn = some cn → cn.closed = false → cn.failWrite = none → cn.input = [] →
      (cmd c r).fst = errToResp IO_ERR .eofErr ∧
      (cmd c r).snd.lastCritical = some .eofErr ∧
      (∃ cn2, (cmd c r).snd.conn = some cn2 ∧ cn2.closed = true)) ∧
    (∀ (c : Client) (cn : Conn) (q : Req),
      c.conn = some cn → cn.closed = false → cn.failWrite = none → cn.input = [] →
      c.completed = [] → c.pending = [q] →
      (pipeResp c).fst = errToResp IO_ERR .eofErr ∧
      (pipeResp c).snd.lastCritical = some .eofErr ∧
      (∃ cn2, (pipeResp c).snd.conn = some cn2 ∧ cn2.closed = true)) ∧
    (∀ (c : Client) (cn : Conn) (r : Req),
      c.conn = some cn → cn.closed = true →
      (cmd c r).fst = errToResp IO_ERR .closedConn ∧
      (cmd c r).snd.lastCritical = some .closedConn) ∧
    (∀ (c : Client) (cn : Conn) (q : Req) (qs : List Req),
      c.conn = some cn → cn.closed = true → c.completed = [] → c.pending = q :: qs →
      (pipeResp c).fst = errToResp IO_ERR .closedConn ∧
      (pipeResp c).snd.lastCritical = some .closedConn) ∧
    (∀ (c : Client) (cn : Conn) (r1 : Resp) (rest : List Resp),
      c.conn = some cn → c.completed = r1 :: rest →
      pipeResp c = (r1, { c with completed := rest })) ∧
    (∀ (c : Client) (cn : Conn),
      c.conn = some cn → c.completed = [] → c.pending = [] →
      pipeResp c = (errToResp ERR_REDIS .emptyPipeline, c)) ∧
    (∀ (c : Client) (r : Req), c.conn = none →
      cmd c r = (errToResp IO_ERR .notConnected, c) ∧
      pipeResp c = (errToResp IO_ERR .notConnected, c)) := by
  refine ⟨?_, ?_, ?_, ?_, ?_, ?_, ?_, ?_, ?_⟩
  · intro c cn e r hconn hcl hfw
    obtain ⟨conn0, lc0, pend0, comp0⟩ := c
    simp only at hconn
    subst hconn
    simp [cmd, writeRequest, writeRequest.go, connWrite, hcl, hfw, closeClientConn]
  · intro c cn e q qs hconn hcl hfw hcomp hpend
    obtain ⟨conn0, lc0, pend0, comp0⟩ := c
    simp only at hconn hcomp hpend
    subst hconn hcomp hpend
    simp [pipeResp, writeRequest, writeRequest.go, connWrite, hcl, hfw, closeClientConn]
  · intro c cn r hconn hcl hfw hin
    obtain ⟨conn0, lc0, pend0, comp0⟩ := c
    simp only at hconn
    subst hconn
    simp [cmd, writeRequest, writeRequest.go, connWrite, hcl, hfw, closeClientConn,
      readResp, readOneResp, hin, bufioReadResp, errToResp, Resp.HasType, Resp.typ,
      isTimeout, Resp.err, IO_ERR]
  · intro c cn q hconn hcl hfw hin hcomp hpend
    obtain ⟨conn0, lc0, pend0, comp0⟩ := c
    simp only at hconn hcomp hpend
    subst hconn hcomp hpend
    simp [pipeResp, writeRequest, writeRequest.go, connWrite, hcl, hfw, closeClientConn,
      readMany, readResp, readOneResp, hin, bufioReadResp, errToResp, Resp.HasType,
      Resp.typ, isTimeout, Resp.err, IO_ERR]
  · intro c cn r hconn hcl
    obtain ⟨conn0, lc0, pend0, comp0⟩ := c
    simp only at hconn
    subst hconn
    simp [cmd, writeRequest, writeRequest.go, connWrite, hcl, closeClientConn]
  · intro c cn q qs hconn hcl hcomp hpend
    obtain ⟨conn0, lc0, pend0, comp0⟩ := c
    simp only at hconn hcomp hpend
    subst hconn hcomp hpend
    simp [pipeResp, writeRequest, writeRequest.go, connWrite, hcl, closeClientConn]
  · intro c cn r1 rest hconn hcomp
    obtain ⟨conn0, lc0, pend0, comp0⟩ := c
    simp only at hconn hcomp
    subst hconn hcomp
    simp [pipeResp]
  · intro c cn hconn hcomp hpend
    obtain ⟨conn0, lc0, pend0, comp0⟩ := c
    simp only at hconn hcomp hpend
    subst hconn hcomp hpend
    simp [pipeResp]
  · intro c r hconn
    obtain ⟨conn0, lc0, pend0, comp0⟩ := c
    simp only at hconn
    subst hconn
    exact ⟨by simp [cmd], by simp [pipeResp]⟩

/-- Witness for C6 amended: every leg instantiated at a concrete client —
the faulted write under `Cmd` and under a `PipeResp` flush, the empty-read
failure under both, the closed handle under both, the FIFO pop and the
empty-pipeline reply on a closed handle, and the never-connected client. -/
theorem c6_fatal_error_behavior_witness :
    ((cmd c6client c6req).fst = errToResp IO_ERR c6fault ∧
      (cmd c6client c6req).snd.lastCritical = some c6fault) ∧
    (pipeResp ⟨some ⟨false, [], [], some c6fault⟩, none, [c6req], []⟩).fst =
      errToResp IO_ERR c6fault ∧
    (cmd ⟨some ⟨false, [], [], none⟩, none, [], []⟩ c6req).fst =
      errToResp IO_ERR .eofErr ∧
    (pipeResp ⟨some ⟨false, [], [], none⟩, none, [c6req], []⟩).fst =
      errToResp IO_ERR .eofErr ∧
    (cmd ⟨some ⟨true, [], [], none⟩, none, [], []⟩ c6req).fst =
      errToResp IO_ERR .closedConn ∧
    (pipeResp ⟨some ⟨true, [], [], none⟩, none, [c6req], []⟩).fst =
      errToResp IO_ERR .closedConn ∧
    pipeResp ⟨some ⟨true, [], [], none⟩, none, [], [.mk none INT (.intv 1)]⟩ =
      (.mk none INT (.intv 1), ⟨some ⟨true, [], [], none⟩, none, [], []⟩) ∧
    pipeResp ⟨some ⟨true, [], [], none⟩, none, [], []⟩ =
      (errToResp ERR_REDIS .emptyPipeline, ⟨some ⟨true, [], [], none⟩, none, [], []⟩) ∧
    cmd ⟨none, none, [], []⟩ c6req = (errToResp IO_ERR .notConnected, ⟨none, none, [], []⟩) ∧
    pipeResp ⟨none, none, [], []⟩ = (errToResp IO_ERR .notConnected, ⟨none, none, [], []⟩) := by
  refine ⟨?_, ?_, ?_, ?_, ?_, ?_, ?_, ?_, ?_, ?_⟩
  · have h := c6_fatal_error_behavior.1 c6client ⟨false, [], [], some c6fault⟩ c6fault c6req
      rfl rfl rfl
    exact ⟨h.1, h.2.1⟩
  · exact (c6_fatal_error_behavior.2.1 ⟨some ⟨false, [], [], some c6fault⟩, none, [c6req], []⟩
      ⟨false, [], [], some c6fault⟩ c6fault c6req [] rfl rfl rfl rfl rfl).1
  · exact (c6_fatal_error_behavior.2.2.1 ⟨some ⟨false, [], [], none⟩, none, [], []⟩
      ⟨false, [], [], none⟩ c6req rfl rfl rfl rfl).1
  · exact (c6_fatal_error_behavior.2.2.2.1 ⟨some ⟨false, [], [], none⟩, none, [c6req], []⟩
      ⟨false, [], [], none⟩ c6req rfl rfl rfl rfl rfl rfl).1
  · exact (c6_fatal_error_behavior.2.2.2.2.1 ⟨some ⟨true, [], [], none⟩, none, [], []⟩
      ⟨true, [], [], none⟩ c6req rfl rfl).1
  · exact (c6_fatal_error_behavior.2.2.2.2.2.1 ⟨some ⟨true, [], [], none⟩, none, [c6req], []⟩
      ⟨true, [], [], none⟩ c6req [] rfl rfl rfl rfl).1
  · exact c6_fatal_error_behavior.2.2.2.2.2.2.1
      ⟨some ⟨true, [], [], none⟩, none, [], [.mk none INT (.intv 1)]⟩
      ⟨true, [], [], none⟩ (.mk none INT (.intv 1)) [] rfl rfl
  · exact c6_fatal_error_behavior.2.2.2.2.2.2.2.1
      ⟨some ⟨true, [], [], none⟩, none, [], []⟩ ⟨true, [], [], none⟩ rfl rfl rfl
  · exact (c6_fatal_error_behavior.2.2.2.2.2.2.2.2 ⟨none, none, [], []⟩ c6req rfl).1
  · exact (c6_fatal_error_behavior.2.2.2.2.2.2.2.2 ⟨none, none, [], []⟩ c6req rfl).2
/-- `PipeAppend` over a batch appends the batch to the pending queue in
order. -/
theorem pipeAppendAll_pending : ∀ (rs : List Req) (c : Client),
    pipeAppendAll c rs = ⟨c.conn, c.lastCritical, c.pending ++ rs, c.completed⟩
  | [], c => by cases c; simp [pipeAppendAll]
  | r :: rs, c => by
    show pipeAppendAll (pipeAppend c r) rs = _
    rw [pipeAppendAll_pending rs (pipeAppend c r)]
    cases c
    simp [pipeAppend]

/-- A flush on an open, unfaulted connection writes every request in order
and reports no error. -/
theorem writeRequest_go_ok : ∀ (reqs : List Req) (cn : Conn),
    cn.closed = false → cn.failWrite = none →
    writeRequest.go reqs cn =
      (none, { cn with output := cn.output ++ (reqs.map encodeReq).flatten })
  | [], cn, h1, h2 => by cases cn; simp [writeRequest.go]
  | r :: reqs, cn, h1, h2 => by
    obtain ⟨cl, inp, out, fw⟩ := cn
    simp only at h1 h2
    subst h1 h2
    rw [writeRequest.go]
    simp only [connWrite, Bool.false_eq_true, if_false]
    rw [writeRequest_go_ok reqs ⟨false, inp, out ++ encodeReq r, none⟩ rfl rfl]
    simp

/-- `writeRequest` on an open, unfaulted connection succeeds and appends the
serialized batch to the wire. -/
theorem writeRequest_ok (c : Client) (cn : Conn) (reqs : List Req)
    (hconn : c.conn = some cn) (h1 : cn.closed = false) (h2 : cn.failWrite = none) :
    writeRequest c reqs =
      (none, ({ c with conn := some ({ cn with output := cn.output ++ (reqs.map encodeReq).flatten } : Conn) } : Client)) := by
  obtain ⟨conn0, lc0, pend0, comp0⟩ := c
  simp only at hconn
  subst hconn
  simp [writeRequest, writeRequest_go_ok reqs cn h1 h2]

/-- A strict read that produces a non-`ERR_IO` reply only consumes the
reader's bytes. -/
theorem readResp_noerr (c : Client) (cn : Conn) (r : Resp) (s1 : List Nat)
    (hconn : c.conn = some cn) (hr : readOneResp cn.input = (r, s1))
    (hio : r.HasType IO_ERR = false) :
    readResp c true = (r, { c with conn := some { cn with input := s1 } }) := by
  obtain ⟨conn0, lc0, pend0, comp0⟩ := c
  simp only at hconn
  subst hconn
  simp [readResp, hr, hio]

/-- `readNResps` always returns as many replies as requested. -/
theorem readNResps_length : ∀ (n : Nat) (s : List Nat),
    (readNResps n s).fst.length = n
  | 0, s => rfl
  | n + 1, s => by
    simp [readNResps, readNResps_length n]

/-- Draining `n` strict replies, none of which is an `ERR_IO` reply, matches
the pure iterated read and leaves the connection open. -/
theorem readMany_ok : ∀ (n : Nat) (c : Client) (cn : Conn) (rs : List Resp) (s' : List Nat),
    c.conn = some cn → readNResps n cn.input = (rs, s') →
    (∀ x ∈ rs, x.HasType IO_ERR = false) →
    readMany c n = (rs, { c with conn := some { cn with input := s' } })
  | 0, c, cn, rs, s', hconn, hread, _ => by
    simp only [readNResps, Prod.mk.injEq] at hread
    obtain ⟨hrs, hs⟩ := hread
    subst hrs hs
    obtain ⟨conn0, lc0, pend0, comp0⟩ := c
    simp only at hconn
    subst hconn
    cases cn
    simp [readMany]
  | n + 1, c, cn, rs, s', hconn, hread, hok => by
    rcases hp : readOneResp cn.input with ⟨r1, s1⟩
    rw [readNResps, hp] at hread
    simp only [Prod.mk.injEq] at hread
    obtain ⟨hrs, hs⟩ := hread
    subst hrs hs
    have hio1 : r1.HasType IO_ERR = false := hok r1 (by simp)
    have hok2 : ∀ x ∈ (readNResps n s1).fst, x.HasType IO_ERR = false :=
      fun x hx => hok x (by simp [hx])
    rw [readMany, readResp_noerr c cn r1 s1 hconn hp hio1]
    rw [readMany_ok n { c with conn := some { cn with input := s1 } }
      { cn with input := s1 } (readNResps n s1).fst (readNResps n s1).snd rfl
      (by simp) hok2]

/-- Popping the completed queue: as many `PipeResp` calls as it holds return
its elements in order, leaving it empty and the rest of the state
untouched. -/
theorem runPipeResps_drain : ∀ (xs : List Resp) (c : Client) (cn : Conn),
    c.conn = some cn →
    runPipeResps { c with completed := xs } xs.length = (xs, { c with completed := [] })
  | [], c, cn, hconn => by simp [runPipeResps]
  | x :: xs, c, cn, hconn => by
    obtain ⟨conn0, lc0, pend0, comp0⟩ := c
    simp only at hconn
    subst hconn
    rw [show (x :: xs).length = xs.length + 1 from rfl, runPipeResps]
    simp only [pipeResp]
    rw [runPipeResps_drain xs ⟨some cn, lc0, pend0, []⟩ cn rfl]

/-- C1: on a connected client with an open, unfaulted transport and empty
queues, `N` `PipeAppend` calls followed by `N` `PipeResp` calls return
exactly the `N` replies decoded from the wire in order (the first `PipeResp`
flushes the entire pending queue onto the wire, reads exactly `N` replies
into the completed queue, and the completed queue is drained strictly FIFO),
leaving both queues empty; and on any connected client with empty pending
and completed queues, `PipeResp` returns the synthetic "empty pipeline"
error reply without mutating the client state. -/
theorem c1_pipeline_order (c : Client) (cn : Conn) (reqs : List Req)
    (rs : List Resp) (s' : List Nat)
    (hconn : c.conn = some cn) (hopen : cn.closed = false) (hfw : cn.failWrite = none)
    (hpend : c.pending = []) (hcomp : c.completed = [])
    (hread : readNResps reqs.length cn.input = (rs, s'))
    (hok : ∀ x ∈ rs, x.HasType IO_ERR = false) :
    ((runPipeResps (pipeAppendAll c reqs) reqs.length).fst = rs ∧
     (runPipeResps (pipeAppendAll c reqs) reqs.length).snd.pending = [] ∧
     (runPipeResps (pipeAppendAll c reqs) reqs.length).snd.completed = [] ∧
     (∃ cn2, (runPipeResps (pipeAppendAll c reqs) reqs.length).snd.conn = some cn2 ∧
       cn2.output = cn.output ++ (reqs.map encodeReq).flatten ∧ cn2.input = s')) ∧
    (∀ (c2 : Client) (cn2 : Conn), c2.conn = some cn2 → c2.pending = [] →
      c2.completed = [] → pipeResp c2 = (errToResp ERR_REDIS .emptyPipeline, c2)) := by
  refine ⟨?_, ?_⟩
  case refine_2 =>
    intro c2 cn2 h1 h2 h3
    obtain ⟨conn0, lc0, pend0, comp0⟩ := c2
    simp only at h1 h2 h3
    subst h1 h2 h3
    simp [pipeResp]
  obtain ⟨conn0, lc0, pend0, comp0⟩ := c
  simp only at hconn hpend hcomp
  subst hconn hpend hcomp
  obtain ⟨cl, inp, out, fw⟩ := cn
  simp only at hopen hfw hread ⊢
  subst hopen hfw
  rw [pipeAppendAll_pending]
  simp only [List.nil_append]
  cases reqs with
  | nil =>
    simp only [readNResps, List.length_nil, Prod.mk.injEq] at hread
    obtain ⟨h1, h2⟩ := hread
    subst h1 h2
    simp only [runPipeResps, List.length_nil]
    exact ⟨by trivial, by trivial, by trivial, ⟨false, inp, out, none⟩, by trivial, by simp, by trivial⟩
  | cons q qs =>
    have hlen := readNResps_length (q :: qs).length inp
    rw [hread] at hlen
    simp only [List.length_cons] at hlen hread
    cases rs with
    | nil => simp at hlen
    | cons r1 rs' =>
    have hlen2 : rs'.length = qs.length := by
      simp only [List.length_cons] at hlen
      omega
    have hok1 : r1.HasType IO_ERR = false := hok r1 (by simp)
    have hw := writeRequest_ok ⟨some ⟨false, inp, out, none⟩, lc0, q :: qs, []⟩
      ⟨false, inp, out, none⟩ (q :: qs) rfl rfl rfl
    have hm := readMany_ok (qs.length + 1)
      ⟨some ⟨false, inp, out ++ ((q :: qs).map encodeReq).flatten, none⟩, lc0, [], []⟩
      ⟨false, inp, out ++ ((q :: qs).map encodeReq).flatten, none⟩
      (r1 :: rs') s' rfl hread hok
    have hstep : pipeResp ⟨some ⟨false, inp, out, none⟩, lc0, q :: qs, []⟩ =
        (r1, ⟨some ⟨false, s', out ++ ((q :: qs).map encodeReq).flatten, none⟩,
          lc0, [], rs'⟩) := by
      simp only [pipeResp, hw, List.length_cons]
      simp only [hm]
    have hdr := runPipeResps_drain rs'
      ⟨some ⟨false, s', out ++ ((q :: qs).map encodeReq).flatten, none⟩, lc0, [], []⟩
      ⟨false, s', out ++ ((q :: qs).map encodeReq).flatten, none⟩ rfl
    simp only [List.length_cons, runPipeResps, hstep]
    rw [← hlen2]
    simp only [hdr]
    exact ⟨by trivial, by trivial, by trivial,
      ⟨false, s', out ++ ((q :: qs).map encodeReq).flatten, none⟩, by trivial, by trivial, by trivial⟩

/-- Witness for C1: two echo requests against a wire carrying the replies
`+A` then `+B` come back in exactly that order. -/
theorem c1_pipeline_order_witness :
    (runPipeResps (pipeAppendAll
        ⟨some ⟨false, bytesOfString "+A\r\n+B\r\n", [], none⟩, none, [], []⟩
        [⟨bytesOfString "ECHO", .cons (.str (bytesOfString "A")) .nil⟩,
         ⟨bytesOfString "ECHO", .cons (.str (bytesOfString "B")) .nil⟩]) 2).fst =
      [.mk none STR_SIMPLE (.bytes (bytesOfString "A")),
       .mk none STR_SIMPLE (.bytes (bytesOfString "B"))] :=
  (c1_pipeline_order
    ⟨some ⟨false, bytesOfString "+A\r\n+B\r\n", [], none⟩, none, [], []⟩
    ⟨false, bytesOfString "+A\r\n+B\r\n", [], none⟩
    [⟨bytesOfString "ECHO", .cons (.str (bytesOfString "A")) .nil⟩,
     ⟨bytesOfString "ECHO", .cons (.str (bytesOfString "B")) .nil⟩]
    [.mk none STR_SIMPLE (.bytes (bytesOfString "A")),
     .mk none STR_SIMPLE (.bytes (bytesOfString "B"))] []
    rfl rfl rfl rfl rfl (by rfl) (by decide)).1.1
